import Mathlib

/-!
# Verification of the SalonSync booking engine

Shallow embedding of `booking_system.py` (class `BookingSystem`) over the
SQLAlchemy data model of `models.py`, with the persistent store modelled as
explicit state (`DB`).

Conventions of the embedding:
* Times of day (`"HH:MM"` strings parsed with `strptime`) are minutes after
  midnight, a `Nat` in `[0, 1440)`.  Python `datetime.combine(today, t) + Δ`
  followed by `.time()` (or `strftime("%H:%M")`) is addition modulo 1440,
  and comparison of `time` values is comparison of those minute counts.
* Dates (`"YYYY-MM-DD"` strings, only ever compared for equality) are opaque
  `Nat` codes.
* The `while True` slot-generation loop of `get_available_slots` is embedded
  with an explicit fuel parameter; `none` means the loop has not hit its
  `break` within `fuel` iterations (the Python loop has run at least that
  many iterations without terminating).
* The store is PostgreSQL (`db_config.py`), so foreign-key constraints on
  `bookings.client_id` / `service_id` / `master_id` are enforced at commit:
  a commit referencing a missing row raises `IntegrityError`, which
  `create_booking` catches, rolls back and turns into `False`.
-/

inductive Status where
  | confirmed
  | cancelled
deriving DecidableEq, Repr

structure Client where
  id : Nat
  name : String
  phone : String
  telegram_id : Option Int
deriving DecidableEq, Repr

structure Service where
  id : Nat
  name : String
  duration : Nat
  price : Nat
deriving DecidableEq, Repr

structure Master where
  id : Nat
  name : String
  specialization : String
deriving DecidableEq, Repr

structure Schedule where
  master_id : Nat
  date : Nat
  start_time : Nat
  end_time : Nat
deriving DecidableEq, Repr

structure Booking where
  id : Nat
  client_id : Nat
  service_id : Nat
  master_id : Nat
  date : Nat
  start_time : Nat
  end_time : Nat
  status : Status
deriving DecidableEq, Repr

/-- A `{start_time, end_time}` dictionary returned by `get_available_slots`. -/
structure Slot where
  start_time : Nat
  end_time : Nat
deriving DecidableEq, Repr

/-- The persistent store: the tables of `models.py` plus the autoincrement
counters PostgreSQL keeps for the `clients.id` and `bookings.id` columns.
List order is table order (insertion order), which is what an unordered
`.first()` query scans. -/
structure DB where
  clients : List Client
  services : List Service
  masters : List Master
  schedules : List Schedule
  bookings : List Booking
  nextClientId : Nat
  nextBookingId : Nat
deriving DecidableEq, Repr

/-- Two half-open minute intervals `[s1,e1)` and `[s2,e2)` overlap
(glossary: `[a,b)`, `[c,d)` overlap iff `a<d and c<b`). -/
def overlaps (s1 e1 s2 e2 : Nat) : Prop := s1 < e2 ∧ s2 < e1

instance (s1 e1 s2 e2 : Nat) : Decidable (overlaps s1 e1 s2 e2) := by
  unfold overlaps; infer_instance

/-- `booking_system.py:310-314`: a candidate `[s, e)` is available iff for
every booked interval `(bs, be)` we have `e ≤ bs ∨ be ≤ s` (the loop sets
`slot_available = False` iff `not (end_time <= booked_start or
current_time >= booked_end)`). -/
def slotFree (booked : List (Nat × Nat)) (s e : Nat) : Bool :=
  booked.all fun bt => decide (e ≤ bt.1) || decide (bt.2 ≤ s)

/-- `booking_system.py:300-324`, the `while True` loop of
`get_available_slots`, with explicit fuel.  Each iteration computes
`end_time = (current + duration) mod 1440` (Python `datetime` addition
projected back to a `time`), breaks when `end_time > work_end`, otherwise
appends the candidate when it is free and steps `current` by 15 minutes,
again modulo 1440. -/
def slotsLoop (work_end dur : Nat) (booked : List (Nat × Nat)) :
    Nat → Nat → Option (List Slot)
  | 0, _ => none
  | fuel + 1, current =>
    if work_end < (current + dur) % 1440 then
      some []
    else
      match slotsLoop work_end dur booked fuel ((current + 15) % 1440) with
      | none => none
      | some rest =>
        some (if slotFree booked current ((current + dur) % 1440) then
          ⟨current, (current + dur) % 1440⟩ :: rest else rest)

/-- `booking_system.py:272-275`: the `Schedule` row for (master, date),
`.first()` in table order. -/
def findSchedule (db : DB) (master_id date : Nat) : Option Schedule :=
  db.schedules.find? fun s =>
    decide (s.master_id = master_id) && decide (s.date = date)

/-- `booking_system.py:284-296`: the `(start, end)` pairs of the confirmed
bookings of (master, date). -/
def bookedTimes (db : DB) (master_id date : Nat) : List (Nat × Nat) :=
  (db.bookings.filter fun b =>
      decide (b.master_id = master_id) && decide (b.date = date) &&
      decide (b.status = Status.confirmed)).map
    fun b => (b.start_time, b.end_time)

/-- `BookingSystem.get_available_slots` (`booking_system.py:253-328`).
Returns `some []` when no schedule row exists, otherwise runs the slot
loop from the window's open time.  `none` means the loop ran out of fuel. -/
def get_available_slots (fuel : Nat) (db : DB) (master_id date service_duration : Nat) :
    Option (List Slot) :=
  match findSchedule db master_id date with
  | none => some []
  | some sched =>
    slotsLoop sched.end_time service_duration (bookedTimes db master_id date)
      fuel sched.start_time

/-- The booking row `create_booking` builds at `booking_system.py:364-372`:
`end_time` is `strptime(start) + duration` rendered back through
`strftime("%H:%M")`, i.e. addition modulo 1440. -/
def newBooking (db : DB) (client_id service_id master_id date start_time dur : Nat) :
    Booking :=
  ⟨db.nextBookingId, client_id, service_id, master_id, date, start_time,
    (start_time + dur) % 1440, Status.confirmed⟩

/-- `BookingSystem.create_booking` (`booking_system.py:330-383`), with the
availability check evaluated against an explicit `snapshot` state: the check
runs in its own session (`get_available_slots` opens a fresh one) against the
committed state at check time, while the insert later commits into the then
current state.  The sequential call is `snapshot = db`
(see `create_booking`); an interleaving of two racing calls evaluates both
checks against the state before either insert.

Steps, in source order: look up the service (missing → `False`); compute
`end`; fetch the available slots and require the requested start to match one
(`any(slot['start_time'] == start_time ...)`); insert and commit, where the
PostgreSQL foreign-key constraints reject a missing client or master
(`IntegrityError`, caught → rollback → `False`).  A slot loop that has not
terminated is a call that never returns: it commits nothing, modelled as a
rejection. -/
def create_booking_at (fuel : Nat) (snapshot db : DB)
    (client_id service_id master_id date start_time : Nat) : DB × Bool :=
  match snapshot.services.find? fun s => decide (s.id = service_id) with
  | none => (db, false)
  | some service =>
    match get_available_slots fuel snapshot master_id date service.duration with
    | none => (db, false)
    | some slots =>
      if slots.any fun sl => decide (sl.start_time = start_time) then
        if (db.clients.any fun c => decide (c.id = client_id)) &&
            (db.masters.any fun m => decide (m.id = master_id)) then
          ({ db with
              bookings := db.bookings ++
                [newBooking db client_id service_id master_id date start_time
                  service.duration],
              nextBookingId := db.nextBookingId + 1 }, true)
        else (db, false)
      else (db, false)

/-- `BookingSystem.create_booking`, the sequential (non-interleaved) call:
check and insert both see the same current state. -/
def create_booking (fuel : Nat) (db : DB)
    (client_id service_id master_id date start_time : Nat) : DB × Bool :=
  create_booking_at fuel db db client_id service_id master_id date start_time

/-- `booking_system.py:427-432`: `query.filter(Booking.id == id).first()`
followed by `booking.status = 'cancelled'` mutates the first matching row
only. -/
def setCancelled : List Booking → Nat → List Booking
  | [], _ => []
  | b :: rest, i =>
    if b.id = i then { b with status := Status.cancelled } :: rest
    else b :: setCancelled rest i

/-- `BookingSystem.cancel_booking` (`booking_system.py:415-440`): `False`
when no row has the id, otherwise sets the first matching row's status to
`cancelled` (whatever its current status) and reports `True`. -/
def cancel_booking (db : DB) (booking_id : Nat) : DB × Bool :=
  if db.bookings.any fun b => decide (b.id = booking_id) then
    ({ db with bookings := setCancelled db.bookings booking_id }, true)
  else (db, false)

/-- Row matched by `add_client`'s lookup
(`booking_system.py:113-115`): one query filtering
`(Client.phone == phone) | (Client.telegram_id == telegram_id)`.  When the
`telegram_id` argument is `None` the second disjunct is `IS NULL`, matching
rows whose stored `telegram_id` is `None`; `Option.beq` has exactly that
semantics. -/
def clientMatches (phone : String) (telegram_id : Option Int) (c : Client) : Bool :=
  c.phone == phone || c.telegram_id == telegram_id

/-- `BookingSystem.add_client` (`booking_system.py:93-136`): returns the id
of the first row matching the disjunctive filter, in table order, leaving
the store unchanged; otherwise inserts a fresh client and returns its id. -/
def add_client (db : DB) (name phone : String) (telegram_id : Option Int) :
    DB × Option Nat :=
  match db.clients.find? (clientMatches phone telegram_id) with
  | some c => (db, some c.id)
  | none =>
    ({ db with
        clients := db.clients ++ [⟨db.nextClientId, name, phone, telegram_id⟩],
        nextClientId := db.nextClientId + 1 }, some db.nextClientId)

/-- A sequential write operation against the engine. -/
inductive Op where
  | create (client_id service_id master_id date start_time : Nat)
  | cancel (booking_id : Nat)

/-- Apply one sequential operation, keeping only the resulting state. -/
def applyOp (fuel : Nat) (db : DB) : Op → DB
  | Op.create c s m d t => (create_booking fuel db c s m d t).1
  | Op.cancel i => (cancel_booking db i).1

/-- Apply a sequence of operations left to right. -/
def applyOps (fuel : Nat) (ops : List Op) (db : DB) : DB :=
  ops.foldl (applyOp fuel) db

/-- Two booking rows are compatible: when both are confirmed and share a
master and a date, their `[start,end)` intervals do not overlap. -/
def BookingRel (b1 b2 : Booking) : Prop :=
  b1.status = Status.confirmed → b2.status = Status.confirmed →
  b1.master_id = b2.master_id → b1.date = b2.date →
  ¬ overlaps b1.start_time b1.end_time b2.start_time b2.end_time

/-- Invariant 1 of the spec's data model: for a fixed staff member and date,
no two confirmed bookings' `[start,end)` intervals overlap. -/
def Invariant (db : DB) : Prop :=
  db.bookings.Pairwise BookingRel

/-- The slot loop terminates on the given inputs (for some fuel, the Python
loop reaches its `break`). -/
def terminates (db : DB) (master_id date dur : Nat) : Prop :=
  ∃ fuel, (get_available_slots fuel db master_id date dur).isSome

/-- Minutes after midnight of `h:m`, for readable concrete inputs. -/
def hhmm (h m : Nat) : Nat := 60 * h + m

/-- The spec's worked-example store: one client, one 60-minute service, one
master working 10:00-19:00 on date 0, and no bookings. -/
def exampleDB : DB :=
  ⟨[⟨1, "Ann", "79990000001", none⟩], [⟨1, "haircut", 60, 1500⟩],
    [⟨1, "Anna", "hairdresser"⟩], [⟨1, 0, hhmm 10 0, hhmm 19 0⟩], [], 2, 1⟩

/-- `exampleDB` with one confirmed 11:00-12:00 booking. -/
def exampleBookedDB : DB :=
  { exampleDB with
      bookings := [⟨1, 1, 1, 1, 0, hhmm 11 0, hhmm 12 0, Status.confirmed⟩],
      nextBookingId := 2 }

/-- `exampleDB` with the work window moved to 23:00-23:30. -/
def lateWindowDB : DB :=
  { exampleDB with schedules := [⟨1, 0, hhmm 23 0, hhmm 23 30⟩] }

/-- `exampleDB` with work window 10:00-23:45: the close time is within 15
minutes of midnight. -/
def almostMidnightDB : DB :=
  { exampleDB with schedules := [⟨1, 0, hhmm 10 0, hhmm 23 45⟩] }

/-- `exampleDB` with a single booking that is already cancelled. -/
def cancelledOnlyDB : DB :=
  { exampleDB with
      bookings := [⟨1, 1, 1, 1, 0, hhmm 10 0, hhmm 11 0, Status.cancelled⟩],
      nextBookingId := 2 }

/-- A store whose first client row matches a lookup by telegram id and whose
second row matches the same lookup by phone. -/
def twoClientsDB : DB :=
  { exampleDB with
      clients := [⟨1, "B", "phoneB", some 5⟩, ⟨2, "A", "phoneA", some 7⟩],
      nextClientId := 3 }

instance (b1 b2 : Booking) : Decidable (BookingRel b1 b2) := by
  unfold BookingRel; infer_instance

instance (db : DB) : Decidable (Invariant db) := by
  unfold Invariant; infer_instance

theorem slotFree_iff (bk : List (Nat × Nat)) (s e : Nat) :
    slotFree bk s e = true ↔ ∀ bt ∈ bk, e ≤ bt.1 ∨ bt.2 ≤ s := by
  simp [slotFree]

theorem slotsLoop_mem {we dur : Nat} {bk : List (Nat × Nat)} :
    ∀ {fuel c : Nat} {L : List Slot} {sl : Slot},
      slotsLoop we dur bk fuel c = some L → sl ∈ L →
      slotFree bk sl.start_time sl.end_time = true ∧
      sl.end_time = (sl.start_time + dur) % 1440 ∧ sl.end_time ≤ we := by
  intro fuel
  induction fuel with
  | zero => intro c L sl h; simp [slotsLoop] at h
  | succ n ih =>
    intro c L sl h hm
    simp only [slotsLoop] at h
    by_cases hbr : we < (c + dur) % 1440
    · rw [if_pos hbr] at h
      obtain rfl : ([] : List Slot) = L := by injection h
      simp at hm
    · rw [if_neg hbr] at h
      cases hrec : slotsLoop we dur bk n ((c + 15) % 1440) with
      | none => rw [hrec] at h; exact absurd h (by simp)
      | some rest =>
        rw [hrec] at h
        injection h with h
        subst h
        by_cases hfree : slotFree bk c ((c + dur) % 1440) = true
        · rw [if_pos hfree] at hm
          cases List.mem_cons.mp hm with
          | inl heq =>
            subst heq
            exact ⟨hfree, rfl, Nat.le_of_not_lt hbr⟩
          | inr htl => exact ih hrec htl
        · rw [if_neg hfree] at hm
          exact ih hrec hm

theorem slotsLoop_mem_start {we dur : Nat} {bk : List (Nat × Nat)} (hwe : we ≤ 1424) :
    ∀ {fuel c : Nat} {L : List Slot} {sl : Slot}, c + dur < 1440 →
      slotsLoop we dur bk fuel c = some L → sl ∈ L → c ≤ sl.start_time := by
  intro fuel
  induction fuel with
  | zero => intro c L sl _ h; simp [slotsLoop] at h
  | succ n ih =>
    intro c L sl hc h hm
    simp only [slotsLoop] at h
    rw [Nat.mod_eq_of_lt hc] at h
    by_cases hbr : we < c + dur
    · rw [if_pos hbr] at h
      obtain rfl : ([] : List Slot) = L := by injection h
      simp at hm
    · rw [if_neg hbr] at h
      have hle : c + dur ≤ we := Nat.le_of_not_lt hbr
      have hstep : (c + 15) % 1440 = c + 15 := Nat.mod_eq_of_lt (by omega)
      rw [hstep] at h
      cases hrec : slotsLoop we dur bk n (c + 15) with
      | none => rw [hrec] at h; exact absurd h (by simp)
      | some rest =>
        rw [hrec] at h
        injection h with h
        subst h
        have hnext : c ≤ sl.start_time ∨ sl ∈ rest := by
          by_cases hfree : slotFree bk c (c + dur) = true
          · rw [if_pos hfree] at hm
            cases List.mem_cons.mp hm with
            | inl heq => left; subst heq; exact Nat.le_refl _
            | inr htl => right; exact htl
          · rw [if_neg hfree] at hm; right; exact hm
        cases hnext with
        | inl hl => exact hl
        | inr htl =>
          have := ih (c := c + 15) (by omega) hrec htl
          omega

theorem slotsLoop_total {we dur : Nat} {bk : List (Nat × Nat)} (hwe : we ≤ 1424) :
    ∀ (n : Nat) {c : Nat}, c + dur < 1440 → we < c + 15 * n →
      (slotsLoop we dur bk (n + 1) c).isSome = true := by
  intro n
  induction n with
  | zero =>
    intro c hc hlt
    rw [slotsLoop, Nat.mod_eq_of_lt hc, if_pos (by omega)]
    rfl
  | succ k ih =>
    intro c hc hlt
    rw [slotsLoop, Nat.mod_eq_of_lt hc]
    by_cases hbr : we < c + dur
    · rw [if_pos hbr]; rfl
    · rw [if_neg hbr]
      have hle : c + dur ≤ we := Nat.le_of_not_lt hbr
      have hstep : (c + 15) % 1440 = c + 15 := Nat.mod_eq_of_lt (by omega)
      rw [hstep]
      have hrec := ih (c := c + 15) (by omega) (by omega)
      cases hx : slotsLoop we dur bk (k + 1) (c + 15) with
      | none => rw [hx] at hrec; simp at hrec
      | some rest => rfl

theorem slotsLoop_none_1425 : ∀ (fuel c : Nat), c % 15 = 0 →
    slotsLoop 1425 60 [] fuel c = none := by
  intro fuel
  induction fuel with
  | zero => intro c _; rfl
  | succ n ih =>
    intro c hc
    simp only [slotsLoop]
    have he : (c + 60) % 1440 % 15 = 0 := by
      rw [Nat.mod_mod_of_dvd _ (by norm_num)]
      omega
    have hlt : (c + 60) % 1440 < 1440 := Nat.mod_lt _ (by norm_num)
    rw [if_neg (by omega)]
    have hnext : (c + 15) % 1440 % 15 = 0 := by
      rw [Nat.mod_mod_of_dvd _ (by norm_num)]
      omega
    rw [ih _ hnext]

theorem mem_setCancelled :
    ∀ {l : List Booking} {i : Nat} {x : Booking}, x ∈ setCancelled l i →
      x ∈ l ∨ ∃ y ∈ l, x = { y with status := Status.cancelled } := by
  intro l
  induction l with
  | nil => intro i x hx; simp [setCancelled] at hx
  | cons b rest ih =>
    intro i x hx
    unfold setCancelled at hx
    by_cases hb : b.id = i
    · rw [if_pos hb] at hx
      cases List.mem_cons.mp hx with
      | inl he => right; exact ⟨b, List.mem_cons_self _ _, he⟩
      | inr ht => left; exact List.mem_cons_of_mem _ ht
    · rw [if_neg hb] at hx
      cases List.mem_cons.mp hx with
      | inl he => left; exact he ▸ List.mem_cons_self _ _
      | inr ht =>
        cases ih ht with
        | inl h1 => left; exact List.mem_cons_of_mem _ h1
        | inr h2 =>
          obtain ⟨y, hy, he⟩ := h2
          right
          exact ⟨y, List.mem_cons_of_mem _ hy, he⟩

theorem pairwise_setCancelled :
    ∀ {l : List Booking} {i : Nat}, l.Pairwise BookingRel →
      (setCancelled l i).Pairwise BookingRel := by
  intro l
  induction l with
  | nil => intro i _; exact List.Pairwise.nil
  | cons b rest ih =>
    intro i h
    rw [List.pairwise_cons] at h
    obtain ⟨hb, hrest⟩ := h
    unfold setCancelled
    by_cases hid : b.id = i
    · rw [if_pos hid]
      refine List.pairwise_cons.mpr ⟨?_, hrest⟩
      intro x _ hconf
      exact absurd hconf (by simp)
    · rw [if_neg hid]
      refine List.pairwise_cons.mpr ⟨?_, ih hrest⟩
      intro x hx
      cases mem_setCancelled hx with
      | inl h1 => exact hb x h1
      | inr h2 =>
        obtain ⟨y, _, rfl⟩ := h2
        intro _ hconf
        exact absurd hconf (by simp)

theorem cancel_booking_invariant (db : DB) (i : Nat) (h : Invariant db) :
    Invariant (cancel_booking db i).1 := by
  unfold cancel_booking
  by_cases hAny : (db.bookings.any fun b => decide (b.id = i)) = true
  · rw [if_pos hAny]; exact pairwise_setCancelled h
  · rw [if_neg hAny]; exact h

theorem create_booking_invariant (fuel : Nat) (db : DB) (c s m d t : Nat)
    (h : Invariant db) : Invariant (create_booking fuel db c s m d t).1 := by
  unfold create_booking create_booking_at
  split
  · exact h
  · rename_i sv hsv
    split
    · exact h
    · rename_i L hL
      split
      · rename_i hA
        split
        · rename_i hFK
          obtain ⟨sl, hslL, hslt⟩ := List.any_eq_true.mp hA
          rw [decide_eq_true_eq] at hslt
          have hsched : ∃ sched, findSchedule db m d = some sched ∧
              slotsLoop sched.end_time sv.duration (bookedTimes db m d) fuel
                sched.start_time = some L := by
            unfold get_available_slots at hL
            cases hf : findSchedule db m d with
            | none =>
              rw [hf] at hL
              obtain rfl : ([] : List Slot) = L := by injection hL
              simp at hslL
            | some sched => rw [hf] at hL; exact ⟨sched, rfl, hL⟩
          obtain ⟨sched, hf, hL2⟩ := hsched
          obtain ⟨hfree, hend, _⟩ := slotsLoop_mem hL2 hslL
          refine List.pairwise_append.mpr ⟨h, List.pairwise_singleton _ _, ?_⟩
          intro a ha nb hnb
          rw [List.mem_singleton] at hnb
          subst hnb
          intro hconfa _ hmst hdt
          have hmem : (a.start_time, a.end_time) ∈ bookedTimes db m d := by
            unfold bookedTimes
            refine List.mem_map_of_mem _ (List.mem_filter.mpr ⟨ha, ?_⟩)
            simp only [newBooking] at hmst hdt
            simp [hconfa, hmst, hdt]
          have hdisj := (slotFree_iff _ _ _).mp hfree _ hmem
          simp only [newBooking, overlaps]
          simp only [hslt] at hend
          rw [← hend]
          omega
        · exact h
      · exact h

/-- Claim C5: from any state satisfying it, the no-overlap invariant — for
a fixed master and date, no two confirmed bookings' half-open intervals
overlap — is preserved by every sequence of sequential `create_booking`
and `cancel_booking` operations. -/
theorem sequential_ops_preserve_invariant (fuel : Nat) (ops : List Op) :
    ∀ db : DB, Invariant db → Invariant (applyOps fuel ops db) := by
  induction ops with
  | nil => intro db h; exact h
  | cons op rest ih =>
    intro db h
    have hstep : Invariant (applyOp fuel db op) := by
      cases op with
      | create c s m d t => exact create_booking_invariant fuel db c s m d t h
      | cancel i => exact cancel_booking_invariant db i h
    exact ih _ hstep

theorem setCancelled_cancels :
    ∀ {l : List Booking} {i : Nat}, (l.any fun b => decide (b.id = i)) = true →
      ∃ b' ∈ setCancelled l i, b'.id = i ∧ b'.status = Status.cancelled := by
  intro l
  induction l with
  | nil => intro i h; simp at h
  | cons b rest ih =>
    intro i h
    unfold setCancelled
    by_cases hb : b.id = i
    · exact ⟨{ b with status := Status.cancelled }, by rw [if_pos hb]; exact List.mem_cons_self _ _, hb, rfl⟩
    · rw [if_neg hb]
      have h2 : (rest.any fun x => decide (x.id = i)) = true := by
        rcases List.any_eq_true.mp h with ⟨x, hx, hxi⟩
        cases List.mem_cons.mp hx with
        | inl he => rw [decide_eq_true_eq] at hxi; exact absurd (he ▸ hxi) hb
        | inr ht => exact List.any_eq_true.mpr ⟨x, ht, hxi⟩
      obtain ⟨b', hb', hbi, hbs⟩ := ih h2
      exact ⟨b', List.mem_cons_of_mem _ hb', hbi, hbs⟩

theorem setCancelled_append_fresh :
    ∀ {l : List Booking} {b0 : Booking} {i : Nat}, (∀ b ∈ l, b.id ≠ i) → b0.id = i →
      setCancelled (l ++ [b0]) i = l ++ [{ b0 with status := Status.cancelled }] := by
  intro l
  induction l with
  | nil =>
    intro b0 i _ hb0
    simp only [List.nil_append]
    unfold setCancelled
    rw [if_pos hb0]
  | cons b rest ih =>
    intro b0 i hl hb0
    simp only [List.cons_append]
    unfold setCancelled
    rw [if_neg (hl b (List.mem_cons_self _ _))]
    rw [ih (fun x hx => hl x (List.mem_cons_of_mem _ hx)) hb0]

theorem get_available_slots_congr (fuel : Nat) (db db' : DB) (m d dur : Nat)
    (hs : db'.schedules = db.schedules)
    (hb : bookedTimes db' m d = bookedTimes db m d) :
    get_available_slots fuel db' m d dur = get_available_slots fuel db m d dur := by
  unfold get_available_slots
  have hf : findSchedule db' m d = findSchedule db m d := by
    unfold findSchedule; rw [hs]
  rw [hf, hb]

theorem create_booking_success (fuel : Nat) (db : DB) (c s m d t : Nat)
    (hok : (create_booking fuel db c s m d t).2 = true) :
    ∃ sv L, (db.services.find? fun x => decide (x.id = s)) = some sv ∧
      get_available_slots fuel db m d sv.duration = some L ∧
      (L.any fun sl => decide (sl.start_time = t)) = true ∧
      (create_booking fuel db c s m d t).1 =
        { db with
            bookings := db.bookings ++ [newBooking db c s m d t sv.duration],
            nextBookingId := db.nextBookingId + 1 } := by
  unfold create_booking create_booking_at at hok ⊢
  cases hsv : db.services.find? fun x => decide (x.id = s) with
  | none => rw [hsv] at hok; simp at hok
  | some sv =>
    simp only [hsv] at hok ⊢
    cases hL : get_available_slots fuel db m d sv.duration with
    | none => rw [hL] at hok; simp at hok
    | some L =>
      simp only [hL] at hok ⊢
      by_cases hA : (L.any fun sl => decide (sl.start_time = t)) = true
      · rw [if_pos hA] at hok ⊢
        by_cases hFK : ((db.clients.any fun x => decide (x.id = c)) &&
            (db.masters.any fun x => decide (x.id = m))) = true
        · rw [if_pos hFK]
          exact ⟨sv, L, rfl, hL, hA, rfl⟩
        · rw [if_neg hFK] at hok; simp at hok
      · rw [if_neg hA] at hok; simp at hok

/-- Claim C8: cancellation frees the slot: for a booking just created by
`create_booking` (with fresh ids in the store), a successful
`cancel_booking` restores the availability computation to exactly what it
was before the booking, and that computation contains the booking's
`[start, start+duration)` interval as a slot. -/
theorem cancel_booking_frees_slot (fuel : Nat) (db : DB) (c s m d t : Nat) (sv : Service)
    (hsv : (db.services.find? fun x => decide (x.id = s)) = some sv)
    (hfresh : ∀ b ∈ db.bookings, b.id ≠ db.nextBookingId)
    (hok : (create_booking fuel db c s m d t).2 = true) :
    (cancel_booking (create_booking fuel db c s m d t).1 db.nextBookingId).2 = true ∧
    get_available_slots fuel
        (cancel_booking (create_booking fuel db c s m d t).1 db.nextBookingId).1 m d
        sv.duration = get_available_slots fuel db m d sv.duration ∧
    Slot.mk t ((t + sv.duration) % 1440) ∈
      (get_available_slots fuel db m d sv.duration).getD [] := by
  obtain ⟨sv', L, hsv', hL, hA, hdb1⟩ := create_booking_success fuel db c s m d t hok
  rw [hsv] at hsv'
  injection hsv' with he
  subst he
  have hcancelled : setCancelled ((create_booking fuel db c s m d t).1).bookings
      db.nextBookingId = db.bookings ++
      [{ newBooking db c s m d t sv.duration with status := Status.cancelled }] := by
    rw [hdb1]
    exact setCancelled_append_fresh hfresh rfl
  have hany : (((create_booking fuel db c s m d t).1).bookings.any
      fun b => decide (b.id = db.nextBookingId)) = true := by
    rw [hdb1]
    refine List.any_eq_true.mpr ⟨newBooking db c s m d t sv.duration, ?_, ?_⟩
    · exact List.mem_append_right _ (List.mem_singleton_self _)
    · exact decide_eq_true rfl
  refine ⟨?_, ?_, ?_⟩
  · unfold cancel_booking
    rw [if_pos hany]
  · have hdb2 : (cancel_booking (create_booking fuel db c s m d t).1 db.nextBookingId).1
        = { (create_booking fuel db c s m d t).1 with
            bookings := db.bookings ++
              [{ newBooking db c s m d t sv.duration with status := Status.cancelled }] } := by
      unfold cancel_booking
      rw [if_pos hany, hcancelled]
    rw [hdb2]
    apply get_available_slots_congr
    · rw [hdb1]
    · unfold bookedTimes
      show ((db.bookings ++
          [{ newBooking db c s m d t sv.duration with status := Status.cancelled }]).filter _).map _
        = _
      rw [List.filter_append]
      have hone : ([{ newBooking db c s m d t sv.duration with status := Status.cancelled }].filter
          fun b => decide (b.master_id = m) && decide (b.date = d) &&
            decide (b.status = Status.confirmed)) = [] := by
        simp
      rw [hone, List.append_nil]
  · rw [hL]
    simp only [Option.getD_some]
    obtain ⟨sl, hslL, hslt⟩ := List.any_eq_true.mp hA
    rw [decide_eq_true_eq] at hslt
    unfold get_available_slots at hL
    cases hf : findSchedule db m d with
    | none =>
      rw [hf] at hL
      obtain rfl : ([] : List Slot) = L := by injection hL
      simp at hslL
    | some sched =>
      rw [hf] at hL
      obtain ⟨_, hend, _⟩ := slotsLoop_mem hL hslL
      cases sl with
      | mk s0 e0 =>
        dsimp at hslt hend
        subst hslt
        subst hend
        exact hslL

/-- Claim C6: `create_booking` rejects, leaving the store unchanged and
persisting no booking row, whenever the requested start matches no slot
currently returned by `get_available_slots`, or the referenced service,
client or master does not exist (the latter two through the foreign-key
constraint at commit). -/
theorem create_booking_rejects (fuel : Nat) (db : DB) (c s m d t : Nat)
    (h : (db.services.find? fun x => decide (x.id = s)) = none ∨
         (∀ x ∈ db.clients, x.id ≠ c) ∨
         (∀ x ∈ db.masters, x.id ≠ m) ∨
         (∀ sv L, (db.services.find? fun x => decide (x.id = s)) = some sv →
            get_available_slots fuel db m d sv.duration = some L →
            ∀ sl ∈ L, sl.start_time ≠ t)) :
    create_booking fuel db c s m d t = (db, false) := by
  unfold create_booking create_booking_at
  cases hsv : db.services.find? fun x => decide (x.id = s) with
  | none => rfl
  | some sv =>
    simp only [hsv]
    cases hL : get_available_slots fuel db m d sv.duration with
    | none => rfl
    | some L =>
      simp only [hL]
      by_cases hA : (L.any fun sl => decide (sl.start_time = t)) = true
      · rw [if_pos hA]
        obtain ⟨sl, hslL, hslt⟩ := List.any_eq_true.mp hA
        rw [decide_eq_true_eq] at hslt
        rcases h with h1 | h2 | h3 | h4
        · rw [h1] at hsv; exact absurd hsv (by simp)
        · have hc : (db.clients.any fun x => decide (x.id = c)) = false :=
            List.any_eq_false.mpr fun x hx => by simp [h2 x hx]
          rw [hc, Bool.false_and, if_neg (by simp)]
        · have hm : (db.masters.any fun x => decide (x.id = m)) = false :=
            List.any_eq_false.mpr fun x hx => by simp [h3 x hx]
          rw [hm, Bool.and_false, if_neg (by simp)]
        · exact absurd hslt (h4 sv L hsv hL sl hslL)
      · rw [if_neg hA]

/-- Claim C7 (amended): `cancel_booking` reports success iff a booking
with the given id exists, regardless of its current status — cancelling an
already-cancelled booking again reports success; for a nonexistent id it
reports failure and leaves the store unchanged; on success some booking
with that id ends up cancelled.  No case raises an exception. -/
theorem cancel_booking_amended (db : DB) (i : Nat) :
    ((cancel_booking db i).2 = (db.bookings.any fun b => decide (b.id = i))) ∧
    ((db.bookings.any fun b => decide (b.id = i)) = false →
      cancel_booking db i = (db, false)) ∧
    ((db.bookings.any fun b => decide (b.id = i)) = true →
      ∃ b' ∈ (cancel_booking db i).1.bookings,
        b'.id = i ∧ b'.status = Status.cancelled) := by
  unfold cancel_booking
  by_cases hAny : (db.bookings.any fun b => decide (b.id = i)) = true
  · rw [if_pos hAny, hAny]
    refine ⟨rfl, ?_, ?_⟩
    · intro hf; exact absurd hf (by simp)
    · intro _
      exact setCancelled_cancels hAny
  · rw [if_neg hAny]
    have hf : (db.bookings.any fun b => decide (b.id = i)) = false := by
      cases hx : db.bookings.any fun b => decide (b.id = i)
      · rfl
      · exact absurd hx hAny
    rw [hf]
    refine ⟨rfl, fun _ => rfl, fun hcon => ?_⟩
    exact absurd hcon (by simp)

/-- Claim C9 (amended): `add_client` looks clients up with a single
disjunctive query (phone OR telegram id) and returns the first matching
row in table order — not a phone-first preference; when a match exists it
returns that client's id with the store unchanged, and two successive
calls with the same phone and different names both return the same fresh
id, the stored name being the one from the first call. -/
theorem add_client_amended :
    (∀ (db : DB) (n p : String) (tid : Option Int) (cl : Client),
        db.clients.find? (clientMatches p tid) = some cl →
        add_client db n p tid = (db, some cl.id)) ∧
    (∀ (db : DB) (n1 n2 p : String) (tid : Option Int),
        (∀ cl ∈ db.clients, clientMatches p tid cl = false) →
        (add_client db n1 p tid).2 = some db.nextClientId ∧
        (add_client (add_client db n1 p tid).1 n2 p tid).2 = some db.nextClientId ∧
        (add_client (add_client db n1 p tid).1 n2 p tid).1 = (add_client db n1 p tid).1 ∧
        ∃ cl ∈ (add_client db n1 p tid).1.clients,
          cl.id = db.nextClientId ∧ cl.name = n1 ∧ cl.phone = p) := by
  constructor
  · intro db n p tid cl hf
    unfold add_client
    rw [hf]
  · intro db n1 n2 p tid hnone
    have hf1 : db.clients.find? (clientMatches p tid) = none :=
      List.find?_eq_none.mpr fun x hx => by rw [hnone x hx]; simp
    have hdb1 : (add_client db n1 p tid).1 =
        { db with
            clients := db.clients ++ [⟨db.nextClientId, n1, p, tid⟩],
            nextClientId := db.nextClientId + 1 } := by
      unfold add_client; rw [hf1]
    have hr1 : (add_client db n1 p tid).2 = some db.nextClientId := by
      unfold add_client; rw [hf1]
    have hmatch : clientMatches p tid ⟨db.nextClientId, n1, p, tid⟩ = true := by
      unfold clientMatches; simp
    have hf2 : ((add_client db n1 p tid).1).clients.find? (clientMatches p tid)
        = some ⟨db.nextClientId, n1, p, tid⟩ := by
      rw [hdb1]
      show (db.clients ++ [(⟨db.nextClientId, n1, p, tid⟩ : Client)]).find? (clientMatches p tid) = _
      rw [List.find?_append, hf1, Option.none_or, List.find?_cons_of_pos _ hmatch]
    have h2 : add_client (add_client db n1 p tid).1 n2 p tid
        = ((add_client db n1 p tid).1, some db.nextClientId) := by
      conv_lhs => rw [add_client]
      rw [hf2]
    refine ⟨hr1, ?_, ?_, ?_⟩
    · rw [h2]
    · rw [h2]
    · refine ⟨⟨db.nextClientId, n1, p, tid⟩, ?_, rfl, rfl, rfl⟩
      rw [hdb1]
      exact List.mem_append_right _ (List.mem_singleton_self _)

/-- Claim C3: slot candidates start at the window's open time, advance in
fixed 15-minute steps, stop before `start + duration` exceeds the close
time, and come back ascending by start time; for the 10:00-19:00 window
with no bookings and duration 60 this yields exactly the 33 slots
10:00-11:00, 10:15-11:15, ..., 18:00-19:00. -/
theorem compute_slots_example_10_19 :
    get_available_slots 50 exampleDB 1 0 60 =
      some ((List.range 33).map fun i => ⟨hhmm 10 0 + 15 * i, hhmm 11 0 + 15 * i⟩) ∧
    ((get_available_slots 50 exampleDB 1 0 60).getD []).length = 33 ∧
    ((get_available_slots 50 exampleDB 1 0 60).getD []).head? =
      some ⟨hhmm 10 0, hhmm 11 0⟩ ∧
    ((get_available_slots 50 exampleDB 1 0 60).getD []).getLast? =
      some ⟨hhmm 18 0, hhmm 19 0⟩ := by
  decide

/-- Claim C4: a candidate slot that exactly abuts a confirmed booking is
still returned (half-open overlap rule): with window 10:00-19:00, one
confirmed booking 11:00-12:00 and duration 60, the slots 10:00-11:00 and
12:00-13:00 are present while 11:00-12:00 and 10:15-11:15 are absent. -/
theorem abutting_slots_example :
    Slot.mk (hhmm 10 0) (hhmm 11 0) ∈
      (get_available_slots 50 exampleBookedDB 1 0 60).getD [] ∧
    Slot.mk (hhmm 12 0) (hhmm 13 0) ∈
      (get_available_slots 50 exampleBookedDB 1 0 60).getD [] ∧
    Slot.mk (hhmm 11 0) (hhmm 12 0) ∉
      (get_available_slots 50 exampleBookedDB 1 0 60).getD [] ∧
    Slot.mk (hhmm 10 15) (hhmm 11 15) ∉
      (get_available_slots 50 exampleBookedDB 1 0 60).getD [] ∧
    (get_available_slots 50 exampleBookedDB 1 0 60).isSome = true := by
  decide

/-- Claim C2 counterexample: slots returned by `get_available_slots` are
claimed to satisfy `work_start ≤ start` for every window, but for the
23:00-23:30 window with duration 60 the wrap-around of Python `time`
arithmetic past midnight makes the loop emit the slot 00:00-01:00, whose
start lies before the window's open time. -/
theorem slots_outside_window_counterexample :
    (get_available_slots 100 lateWindowDB 1 0 60).isSome = true ∧
    Slot.mk (hhmm 0 0) (hhmm 1 0) ∈ (get_available_slots 100 lateWindowDB 1 0 60).getD [] ∧
    hhmm 0 0 < hhmm 23 0 ∧
    findSchedule lateWindowDB 1 0 = some ⟨1, 0, hhmm 23 0, hhmm 23 30⟩ := by
  decide

/-- Claim C2 (amended): when the window closes by 23:44 and
`open + duration` stays below midnight — so no candidate computation wraps
past midnight — every slot returned by `get_available_slots` lies inside
the work window and overlaps no confirmed booking of that master and
date. -/
theorem slots_fit_window_amended (fuel : Nat) (db : DB) (m d dur : Nat)
    (sched : Schedule) (L : List Slot) (sl : Slot)
    (hs : findSchedule db m d = some sched)
    (hwe : sched.end_time ≤ 1424)
    (hws : sched.start_time + dur < 1440)
    (hL : get_available_slots fuel db m d dur = some L)
    (hm : sl ∈ L) :
    sched.start_time ≤ sl.start_time ∧ sl.end_time ≤ sched.end_time ∧
    ∀ bt ∈ bookedTimes db m d, ¬ overlaps sl.start_time sl.end_time bt.1 bt.2 := by
  have hL2 : slotsLoop sched.end_time dur (bookedTimes db m d) fuel sched.start_time
      = some L := by
    unfold get_available_slots at hL
    rw [hs] at hL
    exact hL
  obtain ⟨hfree, _, hendle⟩ := slotsLoop_mem hL2 hm
  refine ⟨slotsLoop_mem_start hwe hws hL2 hm, hendle, ?_⟩
  intro bt hbt
  have hdisj := (slotFree_iff _ _ _).mp hfree bt hbt
  unfold overlaps
  omega

/-- Witness for `slots_fit_window_amended`: the 10:00-11:00 slot of the
10:00-19:00 example window fits the window and clashes with no booking. -/
theorem slots_fit_window_amended_witness :
    hhmm 10 0 ≤ hhmm 10 0 ∧ hhmm 11 0 ≤ hhmm 19 0 ∧
    ∀ bt ∈ bookedTimes exampleDB 1 0,
      ¬ overlaps (hhmm 10 0) (hhmm 11 0) bt.1 bt.2 :=
  slots_fit_window_amended 50 exampleDB 1 0 60 ⟨1, 0, hhmm 10 0, hhmm 19 0⟩
    ((get_available_slots 50 exampleDB 1 0 60).getD []) ⟨hhmm 10 0, hhmm 11 0⟩
    rfl (by decide) (by decide) rfl (by decide)

/-- Claim C10 counterexample: the slot-generation loop does not terminate
for every window with `open < close` and positive duration; with window
10:00-23:45 and duration 60, every candidate end time computed modulo
1440 stays at or below 23:45, so the `break` condition never fires and no
amount of fuel makes the loop return. -/
theorem slots_loop_never_breaks : ¬ terminates almostMidnightDB 1 0 60 := by
  rintro ⟨f, hf⟩
  have h1 : get_available_slots f almostMidnightDB 1 0 60 = slotsLoop 1425 60 [] f 600 :=
    rfl
  rw [h1, slotsLoop_none_1425 f 600 rfl] at hf
  exact absurd hf (by simp)

/-- Claim C10 (amended): the slot-generation loop terminates for every
window whose close time is at most 23:44 and whose open time plus the
requested duration stays below midnight; under those bounds the loop is a
total function of the schedule, the confirmed bookings and the duration. -/
theorem get_available_slots_terminates (db : DB) (m d dur : Nat) (sched : Schedule)
    (hs : findSchedule db m d = some sched)
    (hwe : sched.end_time ≤ 1424)
    (hws : sched.start_time + dur < 1440) :
    terminates db m d dur := by
  refine ⟨sched.end_time + 1 + 1, ?_⟩
  unfold get_available_slots
  rw [hs]
  exact slotsLoop_total hwe (sched.end_time + 1) hws (by omega)

/-- Witness for `get_available_slots_terminates`: the 10:00-19:00 example
window with duration 60 terminates. -/
theorem get_available_slots_terminates_witness : terminates exampleDB 1 0 60 :=
  get_available_slots_terminates exampleDB 1 0 60 ⟨1, 0, hhmm 10 0, hhmm 19 0⟩
    rfl (by decide) (by decide)

/-- Witness for `sequential_ops_preserve_invariant`: creating the 10:00
booking in the example store and cancelling it preserves the no-overlap
invariant. -/
theorem sequential_ops_preserve_invariant_witness :
    Invariant (applyOps 50 [Op.create 1 1 1 0 (hhmm 10 0), Op.cancel 1] exampleDB) :=
  sequential_ops_preserve_invariant 50 [Op.create 1 1 1 0 (hhmm 10 0), Op.cancel 1]
    exampleDB (by decide)

/-- Witness for `create_booking_rejects`: requesting service id 2, which
does not exist in the example store, is rejected with the store
unchanged. -/
theorem create_booking_rejects_witness :
    create_booking 50 exampleDB 1 2 1 0 (hhmm 10 0) = (exampleDB, false) :=
  create_booking_rejects 50 exampleDB 1 2 1 0 (hhmm 10 0) (Or.inl (by decide))

/-- Claim C7 counterexample: `cancel_booking` on a booking that exists but
is already cancelled reports success, although the claim says success is
reported iff the booking exists and is currently confirmed. -/
theorem cancel_cancelled_reports_success :
    (cancel_booking cancelledOnlyDB 1).2 = true ∧
    cancelledOnlyDB.bookings =
      [⟨1, 1, 1, 1, 0, hhmm 10 0, hhmm 11 0, Status.cancelled⟩] ∧
    (∀ b ∈ cancelledOnlyDB.bookings, b.status ≠ Status.confirmed) := by
  decide

/-- Witness for `cancel_booking_amended`: cancelling id 7, absent from the
example store, fails and leaves the store unchanged. -/
theorem cancel_booking_amended_witness :
    cancel_booking exampleDB 7 = (exampleDB, false) :=
  (cancel_booking_amended exampleDB 7).2.1 (by decide)

/-- Witness for `cancel_booking_frees_slot`: create the 10:00 booking in
the example store, cancel it, and the 10:00-11:00 slot is available
again with the availability computation unchanged. -/
theorem cancel_booking_frees_slot_witness :
    (cancel_booking (create_booking 50 exampleDB 1 1 1 0 (hhmm 10 0)).1
        exampleDB.nextBookingId).2 = true ∧
    get_available_slots 50
        (cancel_booking (create_booking 50 exampleDB 1 1 1 0 (hhmm 10 0)).1
          exampleDB.nextBookingId).1 1 0
        (Service.mk 1 "haircut" 60 1500).duration =
      get_available_slots 50 exampleDB 1 0 (Service.mk 1 "haircut" 60 1500).duration ∧
    Slot.mk (hhmm 10 0) ((hhmm 10 0 + (Service.mk 1 "haircut" 60 1500).duration) % 1440) ∈
      (get_available_slots 50 exampleDB 1 0 (Service.mk 1 "haircut" 60 1500).duration).getD [] :=
  cancel_booking_frees_slot 50 exampleDB 1 1 1 0 (hhmm 10 0) ⟨1, "haircut", 60, 1500⟩
    rfl (by decide) (by decide)

/-- Claim C9 counterexample: `add_client` does not look up by phone first:
in a store whose first row matches the requested telegram id and whose
second row matches the requested phone, the call returns the first row's
id (1), not the phone match's id (2). -/
theorem add_client_not_phone_first :
    (add_client twoClientsDB "X" "phoneA" (some 5)).2 = some 1 ∧
    (∀ cl ∈ twoClientsDB.clients, cl.phone = "phoneA" → cl.id = 2) ∧
    (∃ cl ∈ twoClientsDB.clients, cl.phone = "phoneA") := by
  decide

/-- Witness for `add_client_amended`: looking up an existing phone returns
that row's id and leaves the store unchanged. -/
theorem add_client_amended_witness :
    add_client twoClientsDB "X" "phoneB" none = (twoClientsDB, some 1) :=
  add_client_amended.1 twoClientsDB "X" "phoneB" none ⟨1, "B", "phoneB", some 5⟩
    (by decide)

/-- Claim C1 evidence: `create_booking` is check-then-insert without mutual
exclusion — the availability check runs in its own session against the
committed state, and nothing re-validates inside the commit.  Interleaving
two calls for the identical slot (both checks against the initial state,
then both inserts) makes both return success and persists two confirmed
bookings with the same 10:00-11:00 interval for the same master and date,
violating the at-most-one contract and the no-overlap invariant. -/
theorem race_check_then_insert_double_books :
    (create_booking_at 50 exampleDB exampleDB 1 1 1 0 (hhmm 10 0)).2 = true ∧
    (create_booking_at 50 exampleDB
        (create_booking_at 50 exampleDB exampleDB 1 1 1 0 (hhmm 10 0)).1
        1 1 1 0 (hhmm 10 0)).2 = true ∧
    (create_booking_at 50 exampleDB
        (create_booking_at 50 exampleDB exampleDB 1 1 1 0 (hhmm 10 0)).1
        1 1 1 0 (hhmm 10 0)).1.bookings =
      [⟨1, 1, 1, 1, 0, hhmm 10 0, hhmm 11 0, Status.confirmed⟩,
       ⟨2, 1, 1, 1, 0, hhmm 10 0, hhmm 11 0, Status.confirmed⟩] ∧
    ¬ Invariant (create_booking_at 50 exampleDB
        (create_booking_at 50 exampleDB exampleDB 1 1 1 0 (hhmm 10 0)).1
        1 1 1 0 (hhmm 10 0)).1 := by
  decide
